import Mathlib

/-!
Verification development for the kitty-theme-selector repository
(`theme_selector.py` and `ssh_host_selector.py`).

Python strings are modelled as `List Char` (`Str`).  The Python string
operations used by the two programs (`strip`, `lower`, `split`,
`startswith`, `in`) are reimplemented below with the CPython semantics
on the character sets that actually occur (ASCII whitespace and case
mapping; the CPython `str.lower` and `str.strip` agree with these models
on ASCII data).
-/

abbrev Str := List Char

/-- ASCII whitespace as recognised by Python `str.strip()` / `str.split()`. -/
def pyIsSpace (c : Char) : Bool :=
  c = ' ' || c = '\t' || c = '\n' || c = '\r' || c = '\x0b' || c = '\x0c'

/-- Python `s.strip()` (ASCII whitespace). -/
def pyStrip (s : Str) : Str :=
  ((s.dropWhile pyIsSpace).reverse.dropWhile pyIsSpace).reverse

/-- Python `s.lower()` (ASCII case mapping, as in `Char.toLower`). -/
def pyLower (s : Str) : Str :=
  s.map Char.toLower

/-- Python `s.startswith(pre)`. -/
def pyStartsWith (s pre : Str) : Bool :=
  pre.isPrefixOf s

/-- Python `sub in s` (substring containment). -/
def pyContains : Str → Str → Bool
  | [], sub => sub.isEmpty
  | c :: t, sub => sub.isPrefixOf (c :: t) || pyContains t sub

/-- Helper for Python whitespace `split()`: accumulates the current token. -/
def pySplitWSAux : Str → Str → List Str
  | [], acc => if acc = [] then [] else [acc.reverse]
  | c :: rest, acc =>
    if pyIsSpace c then
      if acc = [] then pySplitWSAux rest [] else acc.reverse :: pySplitWSAux rest []
    else
      pySplitWSAux rest (c :: acc)

/-- Python `s.split()` — split on whitespace runs, no empty tokens. -/
def pySplitWS (s : Str) : List Str :=
  pySplitWSAux s []

/-- Python `s.split(None, 1)` — first whitespace-separated token, then the
remainder of the string (which keeps its internal and trailing spacing). -/
def pySplit1 (s : Str) : List Str :=
  let s1 := s.dropWhile pyIsSpace
  if s1 = [] then []
  else
    let tok := s1.takeWhile (fun c => !pyIsSpace c)
    let rest := (s1.dropWhile (fun c => !pyIsSpace c)).dropWhile pyIsSpace
    if rest = [] then [tok] else [tok, rest]

/-- Python `s.split(sep, 1)` for a one-character separator: `[s]` when the
separator does not occur, otherwise the parts before and after its first
occurrence. -/
def pySplitSep1 (sep : Char) (s : Str) : List Str :=
  let pre := s.takeWhile (fun c => c != sep)
  match s.dropWhile (fun c => c != sep) with
  | [] => [pre]
  | _ :: t => [pre, t]

/-- Python `str.splitlines()`: the line-break characters it recognises. -/
def pyIsLineBreak (c : Char) : Bool :=
  c = '\n' || c = '\r' || c = '\x0b' || c = '\x0c' || c = '\x1c' ||
    c = '\x1d' || c = '\x1e' || c = '\x85' || c = Char.ofNat 0x2028 || c = Char.ofNat 0x2029

/-- Helper for `pySplitlines`, carrying the (reversed) current line. -/
def pySplitlinesAux : Str → Str → List Str
  | [], acc => if acc = [] then [] else [acc.reverse]
  | '\r' :: '\n' :: rest, acc => acc.reverse :: pySplitlinesAux rest []
  | c :: rest, acc =>
    if pyIsLineBreak c then acc.reverse :: pySplitlinesAux rest []
    else pySplitlinesAux rest (c :: acc)

/-- Python `s.splitlines()`. -/
def pySplitlines (s : Str) : List Str :=
  pySplitlinesAux s []

/-- Lexicographic strict comparison of strings by code point, which is
the Python `<` on `str`. -/
def strLtB : Str → Str → Bool
  | [], [] => false
  | [], _ :: _ => true
  | _ :: _, [] => false
  | a :: as, b :: bs =>
    if a < b then true
    else if a = b then strLtB as bs
    else false

/-- Non-strict string comparison, `a <= b` in Python. -/
def strLeB (a b : Str) : Bool :=
  strLtB a b || a == b

/-- One entry of the SSH host list: the tuple
`(display_name, host_alias, theme_or_none)` built by `parse_ssh_config`. -/
structure SSHEntry where
  display : Str
  host_alias : Str
  theme : Option Str
deriving DecidableEq

/-- Display label for a host block: `f"{user}@{alias}" if current_user else alias`
(an empty user string is falsy in Python). -/
def displayFor (user : Option Str) (al : Str) : Str :=
  match user with
  | some u => if u = [] then al else u ++ '@' :: al
  | none => al

/-- Emission of one `Host` block (`ssh_host_selector.py` lines 43–47 and
68–72): every nonempty identifier other than `*` yields one entry. -/
def emitBlock (hosts : List Str) (user theme : Option Str) : List SSHEntry :=
  hosts.filterMap fun al =>
    if al ≠ [] ∧ al ≠ ['*'] then
      some ⟨displayFor user al, al, theme⟩
    else
      none

/-- Identifier tokens of a `Host` header line:
`parts = line.split(None, 1); parts[1].split() if len(parts) > 1 else []`. -/
def hostTokens (line : Str) : List Str :=
  match pySplit1 line with
  | [_, rest] => pySplitWS rest
  | _ => []

/-- The comment branch of the parser (`ssh_host_selector.py` lines 55–64):
a `# kitty theme: v` / `# kitty theme= v` directive updates the block theme
when its trimmed value is nonempty, otherwise the old value is kept.
The separator is `':'` whenever a colon occurs anywhere in the comment rest,
and `'='` otherwise. -/
def commentTheme (line : Str) (theme : Option Str) : Option Str :=
  let rest := pyStrip (line.drop 1)
  let rlower := pyLower rest
  if pyStartsWith rlower ("kitty theme:".data) || pyStartsWith rlower ("kitty theme=".data) then
    let sep := if rest.contains ':' then ':' else '='
    let value := pyStrip ((pySplitSep1 sep rest).getD 1 [])
    if value = [] then theme else some value
  else
    theme

/-- The `User` key-value branch (`ssh_host_selector.py` lines 65–67). -/
def userUpdate (line : Str) (user : Option Str) : Option Str :=
  match pySplit1 line with
  | [k, v] => if pyLower k = "user".data then some (pyStrip v) else user
  | _ => user

/-- The per-line loop of `parse_ssh_config` (lines 40–72), carried out over
the split lines with the mutable block state passed explicitly. -/
def parseLoop : List Str → List Str → Option Str → Option Str → List SSHEntry
  | [], hosts, user, theme => emitBlock hosts user theme
  | raw :: rest, hosts, user, theme =>
    let line := pyStrip raw
    if pyStartsWith (pyLower line) ("host ".data) then
      emitBlock hosts user theme ++ parseLoop rest (hostTokens line) none none
    else if line = [] then
      parseLoop rest hosts user theme
    else if pyStartsWith line ("#".data) then
      parseLoop rest hosts user (commentTheme line theme)
    else
      parseLoop rest hosts (userUpdate line user) theme

/-- The dedup loop of `parse_ssh_config` (lines 73–79): keep the first
occurrence of each `host_alias`. -/
def dedupeByAlias : List SSHEntry → List Str → List SSHEntry
  | [], _ => []
  | e :: es, seen =>
    if seen.contains e.host_alias then dedupeByAlias es seen
    else e :: dedupeByAlias es (e.host_alias :: seen)

/-- Non-strict lexicographic order on a pair of strings — the Python `<=`
on pairs of strings, as used by `list.sort` on a two-component key. -/
def lexLeB (a1 a2 b1 b2 : Str) : Bool :=
  strLtB a1 b1 || (a1 == b1 && strLeB a2 b2)

/-- The sort relation of `unique.sort(key=lambda x: (x[0].lower(), x[1]))`:
non-strict lexicographic order on the key pair. -/
def sshLe (a b : SSHEntry) : Prop :=
  lexLeB (pyLower a.display) a.host_alias (pyLower b.display) b.host_alias = true

instance : DecidableRel sshLe := fun _ _ =>
  inferInstanceAs (Decidable (_ = true))

/-- The body of `parse_ssh_config` after reading, over the split lines:
per-line loop, dedup by alias, stable sort by `(display.lower(), alias)`.
Python `list.sort` is a stable sort; it is modelled by `List.insertionSort`,
which is stable and produces the same (unique) stably-sorted output. -/
def parse_ssh_config_lines (lines : List Str) : List SSHEntry :=
  List.insertionSort sshLe (dedupeByAlias (parseLoop lines [] none none) [])

/-- Outcome of reading the config file: `config_path.is_file()` false, an
`OSError` from `read_text`, or the decoded text (decoding uses
`errors="replace"` and therefore always produces some text). -/
inductive ReadResult where
  | notAFile
  | readError
  | content (text : Str)
deriving DecidableEq

/-- `parse_ssh_config` including its guard and exception handler
(lines 30–36): a missing file or a failing read gives the empty list. -/
def parse_ssh_config (r : ReadResult) : List SSHEntry :=
  match r with
  | .notAFile => []
  | .readError => []
  | .content text => parse_ssh_config_lines (pySplitlines text)

/-!
Theme variant (`theme_selector.py`).  A theme file found by
`config_dir.rglob("*.conf")` is modelled by its path relative to the
config directory, as the nonempty list of its path components
(`relative_to` in `collect_themes` then always succeeds).  `str` of such
a path joins the components with `/`; the absolute path seen by the
program is the config-directory string followed by `/` and the joined
relative path.  Comparison of `pathlib` paths (used by `sorted`) is
comparison of their strings; on the rglob results, which all share the
config-directory prefix, it is equivalent to comparing the joined
relative strings.
-/

abbrev PyPath := List Str

/-- Python `PurePath.stem` of a file name: the name up to the last dot,
except that a leading or trailing dot does not start a suffix. -/
def pyStem (name : Str) : Str :=
  match name.reverse.findIdx? (· == '.') with
  | none => name
  | some j =>
    let i := name.length - 1 - j
    if 0 < i ∧ i < name.length - 1 then name.take i else name

/-- String form of a relative path: components joined with `/`. -/
def joinStr : List Str → Str
  | [] => []
  | [a] => a
  | a :: b :: rest => a ++ '/' :: joinStr (b :: rest)

/-- Last component (the file name) of a path. -/
def pathLastName (p : PyPath) : Str :=
  p.getLast?.getD []

/-- Display label of a theme file (`theme_selector.py` lines 34–37):
`f"{rel.parent / stem}"` unless the file sits directly in the config
directory, in which case it is just the stem. -/
def pathDisplay (p : PyPath) : Str :=
  if p.length ≤ 1 then pyStem (pathLastName p)
  else joinStr (p.dropLast ++ [pyStem (pathLastName p)])

/-- The absolute path string `str(path)` of a theme file, given the
config-directory string (no trailing slash, as produced by `resolve()`). -/
def pathTarget (cfg : Str) (p : PyPath) : Str :=
  cfg ++ '/' :: joinStr p

/-- One entry of the theme list: the tuple `(display, path)` built by
`collect_themes`. -/
structure ThemeEntry where
  display : Str
  path : PyPath
deriving DecidableEq

/-- Path order used by `sorted(config_dir.rglob("*.conf"))`: `pathlib`
compares paths by their strings; with the common config-directory prefix
this is the order of the joined relative strings. -/
def pathLe (p q : PyPath) : Prop :=
  strLeB (joinStr p) (joinStr q) = true

instance : DecidableRel pathLe := fun _ _ =>
  inferInstanceAs (Decidable (_ = true))

/-- The sort relation of `themes.sort(key=lambda t: t[0].lower())`. -/
def themeLe (a b : ThemeEntry) : Prop :=
  strLeB (pyLower a.display) (pyLower b.display) = true

instance : DecidableRel themeLe := fun _ _ =>
  inferInstanceAs (Decidable (_ = true))

/-- The enumeration loop of `collect_themes` (lines 28–38): walk the
sorted paths, skip a path whose stem was already seen, otherwise record
`(display, path)` and remember the stem. -/
def collectLoop : List PyPath → List Str → List ThemeEntry
  | [], _ => []
  | p :: ps, seen =>
    let stem := pyStem (pathLastName p)
    if seen.contains stem then collectLoop ps seen
    else ⟨pathDisplay p, p⟩ :: collectLoop ps (stem :: seen)

/-- The body of `collect_themes` over the list of `.conf` files found by
`rglob` (in arbitrary enumeration order): sort the paths, dedupe by stem
keeping the first, and sort the entries by `display.lower()` with the
stable `list.sort` (modelled by the stable `List.insertionSort`). -/
def collect_themes (paths : List PyPath) : List ThemeEntry :=
  List.insertionSort themeLe (collectLoop (List.insertionSort pathLe paths) [])

/-!
The entry stores: the filtering done by the two `on_input_changed`
handlers (`ssh_host_selector.py` lines 228–239, `theme_selector.py`
lines 162–170).
-/

/-- The filtering of `SSHHostSelectorApp.on_input_changed`: the raw input
value is stripped and lowered; an empty query restores the full list,
otherwise entries are kept whose lowered display or lowered alias
contains the query. -/
def ssh_filter (hosts : List SSHEntry) (value : Str) : List SSHEntry :=
  let query := pyLower (pyStrip value)
  if query = [] then hosts
  else
    hosts.filter fun e =>
      pyContains (pyLower e.display) query || pyContains (pyLower e.host_alias) query

/-- The filtering of `ThemeSelectorApp.on_input_changed`: as `ssh_filter`
but matching on the display label only. -/
def theme_filter (themes : List ThemeEntry) (value : Str) : List ThemeEntry :=
  let query := pyLower (pyStrip value)
  if query = [] then themes
  else
    themes.filter fun e => pyContains (pyLower e.display) query

/-- Spec-worded filter for the SSH variant (for comparison with
`ssh_filter`): keep exactly the entries whose case-folded display label
or case-folded target key contains the case-folded query, with no
whitespace stripping of the query. -/
def specSshFilter (hosts : List SSHEntry) (q : Str) : List SSHEntry :=
  hosts.filter fun e =>
    pyContains (pyLower e.display) (pyLower q) || pyContains (pyLower e.host_alias) (pyLower q)

/-- Spec-worded filter for the theme variant (for comparison with
`theme_filter`): match on the case-folded display label only. -/
def specThemeFilter (themes : List ThemeEntry) (q : Str) : List ThemeEntry :=
  themes.filter fun e => pyContains (pyLower e.display) (pyLower q)

/-!
Configuration-source resolution (`get_ssh_config_path`,
`get_kitty_config_dir`).  `Path(...).expanduser().resolve()` and the
fixed default path are abstracted into a two-case result: either the
override value is used or the fixed default location is used.
-/

inductive ConfigSource where
  | overridden (path : Str)
  | defaultPath
deriving DecidableEq

/-- `get_ssh_config_path` (`ssh_host_selector.py` lines 14–19): the
`SSH_CONFIG_ENV` value (default `""`) is stripped; a nonempty result is
used as override, otherwise the default `~/.ssh/config` is used. -/
def get_ssh_config_path (env : Option Str) : ConfigSource :=
  let path := pyStrip (env.getD [])
  if path ≠ [] then .overridden path else .defaultPath

/-- `get_kitty_config_dir` (`theme_selector.py` lines 14–19): the raw
`KITTY_CONFIG_DIRECTORY` value is used as override whenever it is set
and nonempty (no stripping), otherwise the default `~/.config/kitty`. -/
def get_kitty_config_dir (env : Option Str) : ConfigSource :=
  match env with
  | some e => if e ≠ [] then .overridden e else .defaultPath
  | none => .defaultPath

/-!
Launcher models.  External-process behaviour is abstracted into
environments: `run` gives the outcome of one `subprocess.run` call on a
given argv (tool missing, bounded wait exceeded, or an exit code), and
`execFails` tells whether `os.execvp` on a program name raises
`FileNotFoundError` (when it does not, the process image is replaced and
the call never returns).
-/

inductive RunOutcome where
  | notFound
  | timedOut
  | exited (code : Int)
deriving DecidableEq

structure ConnectEnv where
  run : List Str → RunOutcome
  execFails : Str → Bool

/-- One attempted external invocation, for observing the strategy chain. -/
inductive Attempt where
  | spawn (argv : List Str)
  | exec (prog : Str) (argv : List Str)
deriving DecidableEq

/-- Result of `_connect`: a boolean return, or the process image was
replaced by `os.execvp` (the call never returns). -/
inductive ConnectResult where
  | returned (ok : Bool)
  | replaced (prog : Str) (argv : List Str)
deriving DecidableEq

/-- The fixed remote-control prefix
`["kitten", "@", "launch", "--type=tab", "--cwd", "current"]`. -/
def tabLaunch : List Str :=
  [("kitten".data), ("@".data), ("launch".data), ("--type=tab".data),
    ("--cwd".data), ("current".data)]

/-- `ssh_argv` built in `_connect` (lines 161–164):
`kitten ssh [--kitten color_scheme=THEME] host` (an empty theme string is
falsy and adds no option). -/
def ssh_argv (theme : Option Str) (al : Str) : List Str :=
  [("kitten".data), ("ssh".data)] ++
    (match theme with
     | some t => if t = [] then [] else [("--kitten".data), (("color_scheme=".data) ++ t)]
     | none => []) ++ [al]

/-- `SSHHostSelectorApp._connect` (lines 157–202), with the attempted
invocations recorded.  In kitten mode: try the new-tab remote-control
call (success only on exit code 0; `FileNotFoundError`, a timeout and a
nonzero exit all fall through), then `execvp("kitten", ssh_argv)`, then
`execvp("ssh", ["ssh", host_alias])`; `False` only when every `execvp`
target is missing.  In plain mode: the new-tab call with plain ssh, then
`execvp("ssh", ...)`. -/
def ssh_connect (env : ConnectEnv) (useKitten : Bool) (al : Str) (theme : Option Str) :
    ConnectResult × List Attempt :=
  if useKitten then
    let argv := ssh_argv theme al
    let tabCmd := tabLaunch ++ argv
    if env.run tabCmd = .exited 0 then (.returned true, [.spawn tabCmd])
    else if env.execFails ("kitten".data) then
      if env.execFails ("ssh".data) then
        (.returned false,
          [.spawn tabCmd, .exec ("kitten".data) argv, .exec ("ssh".data) [("ssh".data), al]])
      else
        (.replaced ("ssh".data) [("ssh".data), al],
          [.spawn tabCmd, .exec ("kitten".data) argv, .exec ("ssh".data) [("ssh".data), al]])
    else
      (.replaced ("kitten".data) argv, [.spawn tabCmd, .exec ("kitten".data) argv])
  else
    let tabCmd := tabLaunch ++ [("ssh".data), al]
    if env.run tabCmd = .exited 0 then (.returned true, [.spawn tabCmd])
    else if env.execFails ("ssh".data) then
      (.returned false, [.spawn tabCmd, .exec ("ssh".data) [("ssh".data), al]])
    else
      (.replaced ("ssh".data) [("ssh".data), al],
        [.spawn tabCmd, .exec ("ssh".data) [("ssh".data), al]])

inductive Severity where
  | information
  | error
deriving DecidableEq

/-- A transient notification (`self.notify(msg, severity=..., timeout=...)`). -/
structure Notice where
  msg : Str
  severity : Severity
  timeout : Nat
deriving DecidableEq

/-- Environment for `_apply_theme`: outcome of a `subprocess.run`, and for
a nonzero exit the text `result.stderr or result.stdout or f"exit {code}"`
captured from it. -/
structure ApplyEnv where
  run : List Str → RunOutcome
  errText : List Str → Str

def timedOutMsg : Str :=
  ("Timed out waiting for kitty (try again or increase timeout)").data

def noToolMsg : Str :=
  ("Neither kitten nor kitty found in PATH").data

/-- Python `last_err or "Neither kitten nor kitty found in PATH"`. -/
def lastErrOr (lastErr : Option Str) : Str :=
  match lastErr with
  | some e => if e = [] then noToolMsg else e
  | none => noToolMsg

/-- The command loop of `ThemeSelectorApp._apply_theme` (lines 115–141),
returning (result, attempted commands, emitted notifications): exit 0
returns `True`; a nonzero exit records the error text and moves on;
`FileNotFoundError` moves on; a timeout notifies the distinct timeout
message and returns `False` immediately, abandoning the chain; when the
commands are exhausted the last error (or the tool-missing text) is
notified. -/
def applyLoop (env : ApplyEnv) : Option Str → List (List Str) → Bool × List (List Str) × List Notice
  | lastErr, [] => (false, [], [⟨lastErrOr lastErr, .error, 6⟩])
  | lastErr, cmd :: rest =>
    match env.run cmd with
    | .exited c =>
      if c = 0 then (true, [cmd], [])
      else
        let r := applyLoop env (some (pyStrip (env.errText cmd))) rest
        (r.1, cmd :: r.2.1, r.2.2)
    | .notFound =>
      let r := applyLoop env lastErr rest
      (r.1, cmd :: r.2.1, r.2.2)
    | .timedOut => (false, [cmd], [⟨timedOutMsg, .error, 6⟩])

/-- The argv `[prog, "@", "set-colors", "-a", str(path)]`. -/
def setColorsCmd (prog : Str) (target : Str) : List Str :=
  [prog, ("@".data), ("set-colors".data), ("-a".data), target]

/-- `ThemeSelectorApp._apply_theme` over the two commands
(kitten first, then kitty). -/
def apply_theme (env : ApplyEnv) (target : Str) : Bool × List (List Str) × List Notice :=
  applyLoop env none
    [setColorsCmd ("kitten".data) target, setColorsCmd ("kitty".data) target]

/-!
Picker selection handlers.  The mutable fields of the two apps are
modelled as explicit state records; the handlers below are the two
`on_list_view_selected` methods.  Neither handler writes `filtered`,
`hosts`/`themes` or the highlighted `index`.
-/

structure SSHState where
  hosts : List SSHEntry
  filtered : List SSHEntry
  index : Int
  exited : Bool
  notices : List Notice
  status : Str
deriving DecidableEq

/-- Result of the SSH selection handler: either a next state, or the
process image was replaced from inside `_connect`. -/
inductive SSHStep where
  | next (st : SSHState)
  | procReplaced (prog : Str) (argv : List Str)
deriving DecidableEq

def connectingMsg (display : Str) : Str :=
  ("Connecting to ".data) ++ display ++ ("…".data)

def connectFailMsg : Str :=
  ("Could not run kitten ssh or ssh (not in PATH)").data

/-- `SSHHostSelectorApp.on_list_view_selected` (lines 204–217): guard the
index, resolve the entry from the filtered view, call `_connect`; on
`True` notify the confirmation and exit, on `False` notify the error and
stay. -/
def ssh_on_list_view_selected (env : ConnectEnv) (useKitten : Bool) (st : SSHState)
    (idx : Int) : SSHStep :=
  if idx < 0 ∨ (st.filtered.length : Int) ≤ idx then .next st
  else
    match st.filtered.get? idx.toNat with
    | none => .next st
    | some e =>
      match ssh_connect env useKitten e.host_alias e.theme with
      | (.replaced p a, _) => .procReplaced p a
      | (.returned true, _) =>
        .next { st with
          notices := st.notices ++ [⟨connectingMsg e.display, .information, 2⟩],
          exited := true }
      | (.returned false, _) =>
        .next { st with notices := st.notices ++ [⟨connectFailMsg, .error, 5⟩] }

structure ThemeState where
  themes : List ThemeEntry
  filtered : List ThemeEntry
  index : Int
  exited : Bool
  notices : List Notice
  status : Str
deriving DecidableEq

def appliedMsg (display : Str) : Str :=
  ("Applied: ".data) ++ display

def currentMsg (display : Str) : Str :=
  ("Current: ".data) ++ display

/-- `ThemeSelectorApp.on_list_view_selected` (lines 143–151): guard the
index, resolve the entry, call `_apply_theme` (whose own notifications
are part of the resulting state); on `True` notify the confirmation and
update the status line — the app does not exit; on `False` nothing else
changes. -/
def theme_on_list_view_selected (env : ApplyEnv) (cfg : Str) (st : ThemeState)
    (idx : Int) : ThemeState :=
  if idx < 0 ∨ (st.filtered.length : Int) ≤ idx then st
  else
    match st.filtered.get? idx.toNat with
    | none => st
    | some e =>
      let r := apply_theme env (pathTarget cfg e.path)
      if r.1 then
        { st with
          notices := st.notices ++ r.2.2 ++ [⟨appliedMsg e.display, .information, 2⟩],
          status := currentMsg e.display }
      else
        { st with notices := st.notices ++ r.2.2 }

/-!
Exception-checked variant of the parser.  The parser body contains one
list subscript that is not protected by a length guard: the `[1]` in
`rest.split(sep, 1)[1]`.  The checked functions below return `none`
exactly where the Python code would raise `IndexError`; every other
operation of the parser is total.
-/

/-- The comment branch with the unguarded subscript made explicit. -/
def commentThemeChecked (line : Str) (theme : Option Str) : Option (Option Str) :=
  let rest := pyStrip (line.drop 1)
  let rlower := pyLower rest
  if pyStartsWith rlower ("kitty theme:".data) || pyStartsWith rlower ("kitty theme=".data) then
    let sep := if rest.contains ':' then ':' else '='
    match (pySplitSep1 sep rest).get? 1 with
    | none => none
    | some v =>
      let value := pyStrip v
      some (if value = [] then theme else some value)
  else
    some theme

/-- The per-line loop with the comment branch checked. -/
def parseLoopChecked : List Str → List Str → Option Str → Option Str → Option (List SSHEntry)
  | [], hosts, user, theme => some (emitBlock hosts user theme)
  | raw :: rest, hosts, user, theme =>
    let line := pyStrip raw
    if pyStartsWith (pyLower line) ("host ".data) then
      match parseLoopChecked rest (hostTokens line) none none with
      | none => none
      | some es => some (emitBlock hosts user theme ++ es)
    else if line = [] then
      parseLoopChecked rest hosts user theme
    else if pyStartsWith line ("#".data) then
      match commentThemeChecked line theme with
      | none => none
      | some th => parseLoopChecked rest hosts user th
    else
      parseLoopChecked rest hosts (userUpdate line user) theme

/-- Checked `parse_ssh_config`: `none` where the Python body would raise. -/
def parse_ssh_config_checked (r : ReadResult) : Option (List SSHEntry) :=
  match r with
  | .notAFile => some []
  | .readError => some []
  | .content text =>
    match parseLoopChecked (pySplitlines text) [] none none with
    | none => none
    | some entries => some (List.insertionSort sshLe (dedupeByAlias entries []))

/-- Spec-worded directive extraction (for comparison with
`commentTheme`): the separator is the first occurrence of `:` or `=` in
the directive rest — whichever of the two occurs first — and the value is
everything after it, trimmed. -/
def specCommentTheme (line : Str) (theme : Option Str) : Option Str :=
  let rest := pyStrip (line.drop 1)
  let rlower := pyLower rest
  if pyStartsWith rlower ("kitty theme:".data) || pyStartsWith rlower ("kitty theme=".data) then
    let value := pyStrip ((rest.dropWhile (fun c => c != ':' && c != '=')).drop 1)
    if value = [] then theme else some value
  else
    theme

/-!
Concrete environments and states used by the concrete evaluations.
-/

/-- An environment in which the kitten set-colors command times out and
every other command exits 0. -/
def timeoutThenOkEnv : ApplyEnv :=
  ⟨fun cmd => if cmd = setColorsCmd ("kitten".data) ("t".data) then .timedOut else .exited 0,
   fun _ => []⟩

/-- An environment in which every external command succeeds. -/
def okApplyEnv : ApplyEnv :=
  ⟨fun _ => .exited 0, fun _ => []⟩

/-- A connect environment in which every bounded wait times out and every
`execvp` target is missing. -/
def allFailConnectEnv : ConnectEnv :=
  ⟨fun _ => .timedOut, fun _ => true⟩

/-- A connect environment in which the remote-control call exits 1 and
every `execvp` target is missing. -/
def exitOneConnectEnv : ConnectEnv :=
  ⟨fun _ => .exited 1, fun _ => true⟩

/-- A connect environment in which the remote-control call succeeds. -/
def okConnectEnv : ConnectEnv :=
  ⟨fun _ => .exited 0, fun _ => false⟩

def sampleSSHEntry : SSHEntry :=
  ⟨"h".data, "h".data, none⟩

def sampleSSHState : SSHState :=
  ⟨[sampleSSHEntry], [sampleSSHEntry], 0, false, [], []⟩

def sampleThemeEntry : ThemeEntry :=
  ⟨"t".data, [("t.conf".data)]⟩

def sampleThemeState : ThemeState :=
  ⟨[sampleThemeEntry], [sampleThemeEntry], 0, false, [], []⟩

/-!
Order lemmas for the string comparison: `strLtB` is a strict linear
order, `strLeB` and `lexLeB` are total preorders.
-/

theorem strLtB_irrefl (s : Str) : strLtB s s = false := by
  induction s with
  | nil => rfl
  | cons a t ih => simp [strLtB, ih]

theorem strLtB_trans : ∀ {a b c : Str}, strLtB a b = true → strLtB b c = true →
    strLtB a c = true := by
  intro a
  induction a with
  | nil =>
    intro b c h1 h2
    cases b with
    | nil => simp [strLtB] at h1
    | cons y bs =>
      cases c with
      | nil => simp [strLtB] at h2
      | cons z cs => simp [strLtB]
  | cons x as ih =>
    intro b c h1 h2
    cases b with
    | nil => simp [strLtB] at h1
    | cons y bs =>
      cases c with
      | nil => simp [strLtB] at h2
      | cons z cs =>
        simp only [strLtB] at h1 h2 ⊢
        by_cases hxy : x < y
        · by_cases hyz : y < z
          · rw [if_pos (lt_trans hxy hyz)]
          · rw [if_neg hyz] at h2
            by_cases hyz2 : y = z
            · subst hyz2; rw [if_pos hxy]
            · rw [if_neg hyz2] at h2; exact absurd h2 (by simp)
        · rw [if_neg hxy] at h1
          by_cases hxy2 : x = y
          · subst hxy2
            rw [if_pos rfl] at h1
            by_cases hxz : x < z
            · rw [if_pos hxz]
            · rw [if_neg hxz] at h2 ⊢
              by_cases hxz2 : x = z
              · rw [if_pos hxz2] at h2 ⊢; exact ih h1 h2
              · rw [if_neg hxz2] at h2; exact absurd h2 (by simp)
          · rw [if_neg hxy2] at h1; exact absurd h1 (by simp)

theorem strLtB_trichotomy : ∀ (a b : Str), strLtB a b = true ∨ a = b ∨ strLtB b a = true := by
  intro a
  induction a with
  | nil =>
    intro b
    cases b with
    | nil => exact Or.inr (Or.inl rfl)
    | cons y bs => exact Or.inl rfl
  | cons x as ih =>
    intro b
    cases b with
    | nil => exact Or.inr (Or.inr rfl)
    | cons y bs =>
      rcases lt_trichotomy x y with h | h | h
      · left; simp [strLtB, h]
      · subst h
        rcases ih bs with h2 | h2 | h2
        · left; simp [strLtB, h2]
        · right; left; rw [h2]
        · right; right; simp [strLtB, h2]
      · right; right; simp [strLtB, h]

theorem strLtB_asymm {a b : Str} (h1 : strLtB a b = true) (h2 : strLtB b a = true) : False := by
  have h := strLtB_trans h1 h2
  simp [strLtB_irrefl] at h

theorem strLtB_append_left (x a b : Str) : strLtB (x ++ a) (x ++ b) = strLtB a b := by
  induction x with
  | nil => rfl
  | cons c t ih => simp [strLtB, ih]

theorem strLeB_iff {a b : Str} : strLeB a b = true ↔ strLtB a b = true ∨ a = b := by
  simp [strLeB, Bool.or_eq_true]

theorem strLeB_refl (a : Str) : strLeB a a = true := by
  simp [strLeB]

theorem strLeB_trans {a b c : Str} (h1 : strLeB a b = true) (h2 : strLeB b c = true) :
    strLeB a c = true := by
  rcases strLeB_iff.mp h1 with h1 | rfl
  · rcases strLeB_iff.mp h2 with h2 | rfl
    · exact strLeB_iff.mpr (Or.inl (strLtB_trans h1 h2))
    · exact strLeB_iff.mpr (Or.inl h1)
  · exact h2

theorem strLeB_total (a b : Str) : strLeB a b = true ∨ strLeB b a = true := by
  rcases strLtB_trichotomy a b with h | rfl | h
  · exact Or.inl (strLeB_iff.mpr (Or.inl h))
  · exact Or.inl (strLeB_refl a)
  · exact Or.inr (strLeB_iff.mpr (Or.inl h))

theorem lexLeB_trans {a1 a2 b1 b2 c1 c2 : Str} (h1 : lexLeB a1 a2 b1 b2 = true)
    (h2 : lexLeB b1 b2 c1 c2 = true) : lexLeB a1 a2 c1 c2 = true := by
  simp only [lexLeB, Bool.or_eq_true, Bool.and_eq_true, beq_iff_eq] at h1 h2 ⊢
  rcases h1 with h1 | ⟨e1, l1⟩
  · rcases h2 with h2 | ⟨e2, l2⟩
    · exact Or.inl (strLtB_trans h1 h2)
    · exact Or.inl (e2 ▸ h1)
  · rcases h2 with h2 | ⟨e2, l2⟩
    · exact Or.inl (e1 ▸ h2)
    · exact Or.inr ⟨e1.trans e2, strLeB_trans l1 l2⟩

theorem lexLeB_total (a1 a2 b1 b2 : Str) :
    lexLeB a1 a2 b1 b2 = true ∨ lexLeB b1 b2 a1 a2 = true := by
  simp only [lexLeB, Bool.or_eq_true, Bool.and_eq_true, beq_iff_eq]
  rcases strLtB_trichotomy a1 b1 with h | rfl | h
  · exact Or.inl (Or.inl h)
  · rcases strLeB_total a2 b2 with h | h
    · exact Or.inl (Or.inr ⟨rfl, h⟩)
    · exact Or.inr (Or.inr ⟨rfl, h⟩)
  · exact Or.inr (Or.inl h)

/-- The empty string is contained in every string. -/
theorem pyContains_nil (s : Str) : pyContains s [] = true := by
  cases s <;> simp [pyContains, List.isPrefixOf]

/-- C1 (amended): for every full list and every raw query value, the
filtering of `on_input_changed` returns exactly the entries of the full
list, in the full list order (a sublist), whose case-folded display label
— and, in the SSH variant only, also case-folded target key — contains
the case-folded and whitespace-stripped query as a substring; the empty
query returns the full list unchanged.  Amended from the claim as stated
only in that the code strips the query of surrounding whitespace before
matching. -/
theorem c1_filter_exact (hosts : List SSHEntry) (themes : List ThemeEntry) (value : Str) :
    ssh_filter hosts value = specSshFilter hosts (pyStrip value) ∧
    theme_filter themes value = specThemeFilter themes (pyStrip value) ∧
    ssh_filter hosts [] = hosts ∧
    theme_filter themes [] = themes ∧
    (ssh_filter hosts value).Sublist hosts ∧
    (theme_filter themes value).Sublist themes := by
  refine ⟨?_, ?_, by rfl, by rfl, ?_, ?_⟩
  · simp only [ssh_filter, specSshFilter]
    by_cases h : pyLower (pyStrip value) = []
    · rw [if_pos h]
      have h0 : pyStrip value = [] := by
        unfold pyLower at h
        exact List.map_eq_nil_iff.mp h
      rw [h0]
      have hall : ∀ e ∈ hosts,
          (pyContains (pyLower e.display) (pyLower []) ||
            pyContains (pyLower e.host_alias) (pyLower [])) = true := by
        intro e _
        simp [pyContains_nil, pyLower]
      rw [List.filter_congr hall, List.filter_true]
    · rw [if_neg h]
  · simp only [theme_filter, specThemeFilter]
    by_cases h : pyLower (pyStrip value) = []
    · rw [if_pos h]
      have h0 : pyStrip value = [] := by
        unfold pyLower at h
        exact List.map_eq_nil_iff.mp h
      rw [h0]
      have hall : ∀ e ∈ themes,
          pyContains (pyLower e.display) (pyLower []) = true := by
        intro e _
        simp [pyContains_nil, pyLower]
      rw [List.filter_congr hall, List.filter_true]
    · rw [if_neg h]
  · simp only [ssh_filter]
    by_cases h : pyLower (pyStrip value) = []
    · rw [if_pos h]
    · rw [if_neg h]
      exact List.filter_sublist _
  · simp only [theme_filter]
    by_cases h : pyLower (pyStrip value) = []
    · rw [if_pos h]
    · rw [if_neg h]
      exact List.filter_sublist _

/-- C1 counterexample: with the one-entry list whose display and target
key are `"x"` and the query `"x "`, the code (which strips the query)
keeps the entry, while the claim as stated (the case-folded query `"x "`
as substring, no stripping) excludes it. -/
theorem c1_counterexample :
    ssh_filter [⟨"x".data, "x".data, none⟩] ("x ".data) = [⟨"x".data, "x".data, none⟩] ∧
    specSshFilter [⟨"x".data, "x".data, none⟩] ("x ".data) = [] ∧
    ssh_filter [⟨"x".data, "x".data, none⟩] ("x ".data) ≠
      specSshFilter [⟨"x".data, "x".data, none⟩] ("x ".data) := by
  decide

/-- Stripping yields the empty string exactly on all-whitespace input. -/
theorem pyStrip_eq_nil_iff {v : Str} : pyStrip v = [] ↔ ∀ c ∈ v, pyIsSpace c := by
  unfold pyStrip
  rw [List.reverse_eq_nil_iff, List.dropWhile_eq_nil_iff]
  constructor
  · intro h c hc
    have hv : c ∈ List.takeWhile pyIsSpace v ++ List.dropWhile pyIsSpace v := by
      rw [List.takeWhile_append_dropWhile]
      exact hc
    rcases List.mem_append.mp hv with h1 | h1
    · exact List.mem_takeWhile_imp h1
    · exact h c (List.mem_reverse.mpr h1)
  · intro h c hc
    exact h c ((List.dropWhile_sublist pyIsSpace).mem (List.mem_reverse.mp hc))

/-- C8 counterexample: with `KITTY_CONFIG_DIRECTORY` set to the blank
(whitespace-only) string `" "`, the theme variant uses `" "` as override
path rather than the fixed default location the claim prescribes for
unset-or-blank values. -/
theorem c8_counterexample :
    get_kitty_config_dir (some (" ".data)) = ConfigSource.overridden (" ".data) ∧
    get_kitty_config_dir (some (" ".data)) ≠ ConfigSource.defaultPath := by
  decide

/-- C8 (amended): the SSH variant resolves to the fixed default when
`SSH_CONFIG_ENV` is unset or blank (empty or whitespace-only) and to the
stripped override value otherwise; the theme variant resolves to the
fixed default only when `KITTY_CONFIG_DIRECTORY` is unset or exactly
empty, and uses the raw value as override whenever it is nonempty, even
when it is whitespace-only.  Amended from the claim as stated only in
that the theme variant does not treat whitespace-only values as blank. -/
theorem c8_path_resolution (v : Str) :
    get_ssh_config_path none = ConfigSource.defaultPath ∧
    ((∀ c ∈ v, pyIsSpace c) → get_ssh_config_path (some v) = ConfigSource.defaultPath) ∧
    (¬ (∀ c ∈ v, pyIsSpace c) →
      get_ssh_config_path (some v) = ConfigSource.overridden (pyStrip v)) ∧
    get_kitty_config_dir none = ConfigSource.defaultPath ∧
    (v = [] → get_kitty_config_dir (some v) = ConfigSource.defaultPath) ∧
    (v ≠ [] → get_kitty_config_dir (some v) = ConfigSource.overridden v) := by
  refine ⟨by rfl, ?_, ?_, by rfl, ?_, ?_⟩
  · intro h
    have hs : pyStrip v = [] := pyStrip_eq_nil_iff.mpr h
    simp [get_ssh_config_path, hs]
  · intro h
    have hs : pyStrip v ≠ [] := fun he => h (pyStrip_eq_nil_iff.mp he)
    simp [get_ssh_config_path, hs]
  · intro h
    simp [get_kitty_config_dir, h]
  · intro h
    simp [get_kitty_config_dir, h]

/-- C8 witness: the amended theorem applied at the concrete values
`"x "` (SSH, non-blank) and `"k"` (theme, nonempty). -/
theorem c8_witness :
    get_ssh_config_path (some ("x ".data)) = ConfigSource.overridden ("x".data) ∧
    get_kitty_config_dir (some ("k".data)) = ConfigSource.overridden ("k".data) := by
  constructor
  · exact ((c8_path_resolution ("x ".data)).2.2.1 (by decide)).trans (by decide)
  · exact (c8_path_resolution ("k".data)).2.2.2.2.2 (by decide)

/-- C3 counterexample: in the theme-apply action, when the first
strategy (kitten) times out, the chain does not proceed: the launcher
returns failure having attempted only the kitten command, although the
kitty command — never attempted — would have succeeded. -/
theorem c3_counterexample :
    apply_theme timeoutThenOkEnv ("t".data) =
      (false, [setColorsCmd ("kitten".data) ("t".data)],
        [⟨timedOutMsg, Severity.error, 6⟩]) ∧
    timeoutThenOkEnv.run (setColorsCmd ("kitty".data) ("t".data)) = RunOutcome.exited 0 ∧
    setColorsCmd ("kitty".data) ("t".data) ∉ (apply_theme timeoutThenOkEnv ("t".data)).2.1 := by
  decide

/-- C3 (amended): in the connect action a timed-out bounded wait is
recovered by proceeding with the fallback chain — the launcher behaves
exactly as when the remote-control attempt exits nonzero.  In the
theme-apply action a timeout instead aborts the chain at once: the
launcher returns failure after the timed-out command only, with the
distinct timeout notification, and no further strategy is attempted.
Amended from the claim as stated only in that the theme-apply action
stops at a timeout instead of proceeding. -/
theorem c3_timeout_behaviour :
    (∀ (env1 env2 : ConnectEnv) (uk : Bool) (al : Str) (theme : Option Str),
      env1.execFails = env2.execFails →
      env1.run (if uk then tabLaunch ++ ssh_argv theme al
                else tabLaunch ++ [("ssh".data), al]) = RunOutcome.timedOut →
      env2.run (if uk then tabLaunch ++ ssh_argv theme al
                else tabLaunch ++ [("ssh".data), al]) = RunOutcome.exited 1 →
      ssh_connect env1 uk al theme = ssh_connect env2 uk al theme) ∧
    (∀ (env : ApplyEnv) (target : Str),
      env.run (setColorsCmd ("kitten".data) target) = RunOutcome.timedOut →
      apply_theme env target =
        (false, [setColorsCmd ("kitten".data) target],
          [⟨timedOutMsg, Severity.error, 6⟩])) := by
  constructor
  · intro env1 env2 uk al theme hexec h1 h2
    cases uk <;> simp at h1 h2 <;> simp [ssh_connect, h1, h2, hexec]
  · intro env target h
    unfold apply_theme applyLoop
    rw [h]

/-- C3 witness: the amended theorem applied to concrete environments —
all-timeout versus exit-1 connect environments with identical missing
executables, and a theme environment whose kitten command times out. -/
theorem c3_witness :
    ssh_connect allFailConnectEnv true ("h".data) none =
      ssh_connect exitOneConnectEnv true ("h".data) none ∧
    apply_theme timeoutThenOkEnv ("t".data) =
      (false, [setColorsCmd ("kitten".data) ("t".data)],
        [⟨timedOutMsg, Severity.error, 6⟩]) := by
  constructor
  · exact c3_timeout_behaviour.1 allFailConnectEnv exitOneConnectEnv true ("h".data) none
      rfl rfl rfl
  · exact c3_timeout_behaviour.2 timeoutThenOkEnv ("t".data) rfl

/-- C10: in the connect launcher the color-scheme metadata influences
only the kitten-based invocations: in plain-ssh mode the result and the
attempted commands are independent of the metadata, the plain-mode
remote-control attempt carries exactly `ssh host_alias`, and every
`execvp` of the plain `ssh` binary — the final fallback in kitten mode
and the fallback in plain mode — passes exactly `["ssh", host_alias]`,
silently dropping the color scheme. -/
theorem c10_metadata_kitten_only (env : ConnectEnv) (al : Str) (theme : Option Str) :
    ssh_connect env false al theme = ssh_connect env false al none ∧
    (∀ argv, Attempt.spawn argv ∈ (ssh_connect env false al theme).2 →
      argv = tabLaunch ++ [("ssh".data), al]) ∧
    (∀ (uk : Bool) (argv : List Str),
      Attempt.exec ("ssh".data) argv ∈ (ssh_connect env uk al theme).2 →
      argv = [("ssh".data), al]) := by
  refine ⟨rfl, ?_, ?_⟩
  · intro argv h
    by_cases hrun : env.run (tabLaunch ++ [("ssh".data), al]) = RunOutcome.exited 0 <;>
      by_cases hs : env.execFails ("ssh".data) = true <;>
      simp [ssh_connect, hrun, hs] at h <;>
      simp_all
  · intro uk argv h
    cases uk with
    | true =>
      by_cases hrun : env.run (tabLaunch ++ ssh_argv theme al) = RunOutcome.exited 0 <;>
        by_cases hk : env.execFails ("kitten".data) = true <;>
        by_cases hs : env.execFails ("ssh".data) = true <;>
        simp [ssh_connect, hrun, hk, hs] at h <;>
        simp_all
    | false =>
      by_cases hrun : env.run (tabLaunch ++ [("ssh".data), al]) = RunOutcome.exited 0 <;>
        by_cases hs : env.execFails ("ssh".data) = true <;>
        simp [ssh_connect, hrun, hs] at h <;>
        simp_all

/-- C10 witness: with every tool missing, the kitten-mode trace contains
the final plain-ssh fallback, whose argv is exactly `ssh` and the alias
even though a color scheme was requested. -/
theorem c10_witness :
    Attempt.exec ("ssh".data) [("ssh".data), ("h".data)] ∈
      (ssh_connect allFailConnectEnv true ("h".data) (some ("d".data))).2 ∧
    (∀ argv, Attempt.exec ("ssh".data) argv ∈
        (ssh_connect allFailConnectEnv true ("h".data) (some ("d".data))).2 →
      argv = [("ssh".data), ("h".data)]) := by
  constructor
  · decide
  · exact (c10_metadata_kitten_only allFailConnectEnv ("h".data) (some ("d".data))).2.2 true

/-- C2 counterexample: a theme-variant selection on a valid index in
which the launcher succeeds: the handler appends the confirmation and
updates the status, but the resulting state has not exited — contrary to
the claim that a launcher success terminates the picker. -/
theorem c2_counterexample :
    (apply_theme okApplyEnv (pathTarget ("/c".data) [("t.conf".data)])).1 = true ∧
    (theme_on_list_view_selected okApplyEnv ("/c".data) sampleThemeState 0).exited = false ∧
    (theme_on_list_view_selected okApplyEnv ("/c".data) sampleThemeState 0).notices =
      [⟨appliedMsg ("t".data), Severity.information, 2⟩] := by
  decide

/-- C2 (amended): when a selection is confirmed on a valid index, the
picker invokes the launcher on the entry resolved from the filtered view
at that index.  In the SSH variant a launcher success appends the
transient confirmation and exits, and a failure appends the transient
error, does not exit, and leaves the filtered view and the highlighted
index unchanged.  In the theme variant a failure likewise leaves
everything but the launcher notifications unchanged, while a success
appends the confirmation and updates the status line but does not
terminate the picker.  Amended from the claim as stated only in that the
theme variant stays open after a successful launch. -/
theorem c2_selection (envC : ConnectEnv) (envA : ApplyEnv) (uk : Bool) (cfg : Str)
    (st : SSHState) (ts : ThemeState) (idx : Int) (e : SSHEntry) (te : ThemeEntry) :
    (0 ≤ idx → idx < (st.filtered.length : Int) → st.filtered.get? idx.toNat = some e →
      ((ssh_connect envC uk e.host_alias e.theme).1 = ConnectResult.returned true →
        ssh_on_list_view_selected envC uk st idx = SSHStep.next { st with
          notices := st.notices ++ [⟨connectingMsg e.display, Severity.information, 2⟩],
          exited := true }) ∧
      ((ssh_connect envC uk e.host_alias e.theme).1 = ConnectResult.returned false →
        ssh_on_list_view_selected envC uk st idx = SSHStep.next { st with
          notices := st.notices ++ [⟨connectFailMsg, Severity.error, 5⟩] })) ∧
    (0 ≤ idx → idx < (ts.filtered.length : Int) → ts.filtered.get? idx.toNat = some te →
      ((apply_theme envA (pathTarget cfg te.path)).1 = true →
        theme_on_list_view_selected envA cfg ts idx = { ts with
          notices := ts.notices ++ (apply_theme envA (pathTarget cfg te.path)).2.2 ++
            [⟨appliedMsg te.display, Severity.information, 2⟩],
          status := currentMsg te.display } ∧
        (theme_on_list_view_selected envA cfg ts idx).exited = ts.exited) ∧
      ((apply_theme envA (pathTarget cfg te.path)).1 = false →
        theme_on_list_view_selected envA cfg ts idx = { ts with
          notices := ts.notices ++ (apply_theme envA (pathTarget cfg te.path)).2.2 })) := by
  constructor
  · intro h0 h1 he
    have hguard : ¬ (idx < 0 ∨ (st.filtered.length : Int) ≤ idx) := by
      push_neg
      exact ⟨by omega, by omega⟩
    constructor
    · intro hres
      unfold ssh_on_list_view_selected
      rcases hc : ssh_connect envC uk e.host_alias e.theme with ⟨res, tr⟩
      rw [hc] at hres
      simp at hres
      subst hres
      rw [if_neg hguard, he]
      simp [hc]
    · intro hres
      unfold ssh_on_list_view_selected
      rcases hc : ssh_connect envC uk e.host_alias e.theme with ⟨res, tr⟩
      rw [hc] at hres
      simp at hres
      subst hres
      rw [if_neg hguard, he]
      simp [hc]
  · intro h0 h1 he
    have hguard : ¬ (idx < 0 ∨ (ts.filtered.length : Int) ≤ idx) := by
      push_neg
      exact ⟨by omega, by omega⟩
    constructor
    · intro hres
      rcases ha : apply_theme envA (pathTarget cfg te.path) with ⟨ok, tr, ns⟩
      rw [ha] at hres
      simp at hres
      subst hres
      constructor
      · unfold theme_on_list_view_selected
        rw [if_neg hguard, he]
        simp [ha]
      · unfold theme_on_list_view_selected
        rw [if_neg hguard, he]
        simp [ha]
    · intro hres
      rcases ha : apply_theme envA (pathTarget cfg te.path) with ⟨ok, tr, ns⟩
      rw [ha] at hres
      simp at hres
      subst hres
      unfold theme_on_list_view_selected
      rw [if_neg hguard, he]
      simp [ha]

/-- C2 witness: the amended theorem applied to a concrete SSH-variant
selection whose launcher succeeds. -/
theorem c2_witness :
    (ssh_connect okConnectEnv true ("h".data) none).1 = ConnectResult.returned true ∧
    ssh_on_list_view_selected okConnectEnv true sampleSSHState 0 =
      SSHStep.next { sampleSSHState with
        notices := sampleSSHState.notices ++
          [⟨connectingMsg ("h".data), Severity.information, 2⟩],
        exited := true } := by
  refine ⟨by decide, ?_⟩
  exact ((c2_selection okConnectEnv okApplyEnv true ("/c".data) sampleSSHState
    sampleThemeState 0 sampleSSHEntry sampleThemeEntry).1
    (by decide) (by decide) (by decide)).1 (by decide)

/-- `Char.ofNat` on a basic-latin code point keeps the code point. -/
theorem charOfNat_toNat {n : Nat} (h1 : 97 ≤ n) (h2 : n ≤ 122) :
    (Char.ofNat n).toNat = n := by
  unfold Char.ofNat
  split
  · rfl
  all_goals omega

/-- ASCII case folding maps a character to a code point below 97 only if
it was already that character. -/
theorem toLower_eq_of_low {c d : Char} (hd : d.toNat < 97) (h : Char.toLower c = d) :
    c = d := by
  unfold Char.toLower at h
  have h' : (if 65 ≤ c.toNat ∧ c.toNat ≤ 90 then Char.ofNat (c.toNat + 32) else c) = d := h
  split at h'
  · exfalso
    have h2 := congrArg Char.toNat h'
    rw [charOfNat_toNat (by omega) (by omega)] at h2
    omega
  · exact h' 

/-- When the separator occurs in the string, `split(sep, 1)` has a
second part. -/
theorem pySplitSep1_two {sep : Char} {s : Str} (h : sep ∈ s) :
    ∃ a b, pySplitSep1 sep s = [a, b] := by
  unfold pySplitSep1
  cases hd : s.dropWhile (fun c => c != sep) with
  | nil =>
    exfalso
    have hall := List.dropWhile_eq_nil_iff.mp hd sep h
    simp at hall
  | cons x t =>
    exact ⟨_, t, rfl⟩

/-- The separator chosen by the comment branch occurs in the comment rest
whenever the directive guard holds. -/
theorem sep_mem_rest {rest : Str}
    (hg : (pyStartsWith (pyLower rest) ("kitty theme:".data) ||
      pyStartsWith (pyLower rest) ("kitty theme=".data)) = true) :
    (if rest.contains ':' then ':' else '=') ∈ rest := by
  by_cases hc : rest.contains ':'
  · rw [if_pos hc]
    simpa using hc
  · rw [if_neg hc]
    have hmem : ∀ d : Char, d.toNat < 97 → d ∈ pyLower rest → d ∈ rest := by
      intro d hlow hd
      unfold pyLower at hd
      obtain ⟨c, hc1, hc2⟩ := List.mem_map.mp hd
      rwa [toLower_eq_of_low hlow hc2] at hc1
    have hg2 : pyStartsWith (pyLower rest) ("kitty theme:".data) = true ∨
        pyStartsWith (pyLower rest) ("kitty theme=".data) = true := by
      simpa using hg
    rcases hg2 with hp | hp
    · exfalso
      apply hc
      have hpre := List.isPrefixOf_iff_prefix.mp hp
      obtain ⟨suf, hsuf⟩ := hpre
      have : ':' ∈ pyLower rest := by
        rw [← hsuf]
        simp
      simpa using hmem ':' (by decide) this
    · have hpre := List.isPrefixOf_iff_prefix.mp hp
      obtain ⟨suf, hsuf⟩ := hpre
      have : '=' ∈ pyLower rest := by
        rw [← hsuf]
        simp
      exact hmem '=' (by decide) this

/-- The checked comment branch never fails. -/
theorem commentThemeChecked_eq (line : Str) (theme : Option Str) :
    commentThemeChecked line theme = some (commentTheme line theme) := by
  unfold commentThemeChecked commentTheme
  by_cases hg : (pyStartsWith (pyLower (pyStrip (line.drop 1))) ("kitty theme:".data) ||
      pyStartsWith (pyLower (pyStrip (line.drop 1))) ("kitty theme=".data)) = true
  · rw [if_pos hg, if_pos hg]
    obtain ⟨a, b, hab⟩ := pySplitSep1_two (sep_mem_rest hg)
    simp only [hab]
    rfl
  · rw [if_neg hg, if_neg hg]

/-- The checked parser loop never fails. -/
theorem parseLoopChecked_eq : ∀ (lines hosts : List Str) (user theme : Option Str),
    parseLoopChecked lines hosts user theme = some (parseLoop lines hosts user theme) := by
  intro lines
  induction lines with
  | nil => intro hosts user theme; rfl
  | cons raw rest ih =>
    intro hosts user theme
    simp only [parseLoopChecked, parseLoop]
    by_cases h1 : pyStartsWith (pyLower (pyStrip raw)) ("host ".data) = true
    · simp [h1, ih]
    · simp only [h1, if_false, Bool.false_eq_true]
      by_cases h2 : pyStrip raw = []
      · simp [h2, ih]
      · simp only [h2, if_false]
        by_cases h3 : pyStartsWith (pyStrip raw) ("#".data) = true
        · simp [h3, commentThemeChecked_eq, ih]
        · simp [h3, ih]

/-- C9: for every path and file behaviour the parser returns a list and
never raises: a path that is not a regular file and a read failing with
`OSError` both yield the empty list, and the parser body — whose single
unguarded list subscript is made explicit in the checked variant —
succeeds on every decoded text (decoding with `errors="replace"` is
total, so no byte content of the file can abort parsing). -/
theorem c9_parse_total (r : ReadResult) :
    parse_ssh_config_checked r = some (parse_ssh_config r) ∧
    parse_ssh_config ReadResult.notAFile = [] ∧
    parse_ssh_config ReadResult.readError = [] := by
  refine ⟨?_, rfl, rfl⟩
  cases r with
  | notAFile => rfl
  | readError => rfl
  | content t =>
    simp [parse_ssh_config_checked, parse_ssh_config, parse_ssh_config_lines,
      parseLoopChecked_eq]

/-- C7 counterexample: for the directive rest `kitty theme=foo:bar` the
first separator occurrence is the `=`, so the claim predicts the value
`foo:bar`; the code prefers `:` whenever a colon occurs anywhere and
stores `bar`. -/
theorem c7_counterexample :
    commentTheme ("# kitty theme=foo:bar".data) none = some ("bar".data) ∧
    specCommentTheme ("# kitty theme=foo:bar".data) none = some ("foo:bar".data) ∧
    commentTheme ("# kitty theme=foo:bar".data) none ≠
      specCommentTheme ("# kitty theme=foo:bar".data) none := by
  decide

/-- C7 (amended): when a comment line carries the inline metadata
directive, the separator is `:` at its first occurrence whenever a colon
occurs anywhere in the directive text, and otherwise `=` at its first
occurrence; the metadata value is everything after that first occurrence
of the chosen separator, trimmed (an empty trimmed value leaves the
metadata unchanged).  Amended from the claim as stated only in that for
a text containing both characters the code splits at the first `:`, not
at whichever of `:` or `=` occurs first. -/
theorem c7_directive_split (line : Str) (theme : Option Str)
    (hg : (pyStartsWith (pyLower (pyStrip (line.drop 1))) ("kitty theme:".data) ||
      pyStartsWith (pyLower (pyStrip (line.drop 1))) ("kitty theme=".data)) = true) :
    ∃ pre suf,
      pyStrip (line.drop 1) =
        pre ++ (if (pyStrip (line.drop 1)).contains ':' then ':' else '=') :: suf ∧
      (if (pyStrip (line.drop 1)).contains ':' then ':' else '=') ∉ pre ∧
      commentTheme line theme = (if pyStrip suf = [] then theme else some (pyStrip suf)) := by
  have hsep := sep_mem_rest hg
  cases hd : (pyStrip (line.drop 1)).dropWhile
      (fun c => c != (if (pyStrip (line.drop 1)).contains ':' then ':' else '=')) with
  | nil =>
    exfalso
    have hall := List.dropWhile_eq_nil_iff.mp hd _ hsep
    simp at hall
  | cons x t =>
    have hx : x = (if (pyStrip (line.drop 1)).contains ':' then ':' else '=') := by
      have hh := List.head?_dropWhile_not
        (fun c => c != (if (pyStrip (line.drop 1)).contains ':' then ':' else '='))
        (pyStrip (line.drop 1))
      rw [hd] at hh
      simpa using hh
    refine ⟨(pyStrip (line.drop 1)).takeWhile
      (fun c => c != (if (pyStrip (line.drop 1)).contains ':' then ':' else '=')), t, ?_, ?_, ?_⟩
    · have happ := List.takeWhile_append_dropWhile
        (fun c => c != (if (pyStrip (line.drop 1)).contains ':' then ':' else '='))
        (pyStrip (line.drop 1))
      rw [hd, hx] at happ
      exact happ.symm
    · intro hmem
      have := List.mem_takeWhile_imp hmem
      simp at this
    · unfold commentTheme
      rw [if_pos hg]
      unfold pySplitSep1
      simp only [hd]
      rfl

/-- C7 witness: the amended theorem applied to the concrete comment line
`# kitty theme: a=b`, exhibiting the split at the first colon. -/
theorem c7_witness :
    (pyStartsWith (pyLower (pyStrip (("# kitty theme: a=b".data).drop 1)))
      ("kitty theme:".data) ||
     pyStartsWith (pyLower (pyStrip (("# kitty theme: a=b".data).drop 1)))
      ("kitty theme=".data)) = true ∧
    ∃ pre suf,
      pyStrip (("# kitty theme: a=b".data).drop 1) =
        pre ++ (if (pyStrip (("# kitty theme: a=b".data).drop 1)).contains ':'
                then ':' else '=') :: suf ∧
      (if (pyStrip (("# kitty theme: a=b".data).drop 1)).contains ':'
        then ':' else '=') ∉ pre ∧
      commentTheme ("# kitty theme: a=b".data) none =
        (if pyStrip suf = [] then none else some (pyStrip suf)) := by
  exact ⟨by decide, c7_directive_split ("# kitty theme: a=b".data) none (by decide)⟩

/-- Block emission never yields a `*` target. -/
theorem emitBlock_no_wildcard {hosts : List Str} {user theme : Option Str} {e : SSHEntry}
    (h : e ∈ emitBlock hosts user theme) : e.host_alias ≠ ['*'] := by
  unfold emitBlock at h
  obtain ⟨al, _, he⟩ := List.mem_filterMap.mp h
  by_cases hcond : al ≠ [] ∧ al ≠ ['*']
  · rw [if_pos hcond] at he
    cases he
    exact hcond.2
  · rw [if_neg hcond] at he
    exact absurd he (by simp)

/-- The parser loop never yields a `*` target. -/
theorem parseLoop_no_wildcard : ∀ (lines hosts : List Str) (user theme : Option Str)
    (e : SSHEntry), e ∈ parseLoop lines hosts user theme → e.host_alias ≠ ['*'] := by
  intro lines
  induction lines with
  | nil =>
    intro hosts user theme e h
    exact emitBlock_no_wildcard h
  | cons raw rest ih =>
    intro hosts user theme e h
    simp only [parseLoop] at h
    split at h
    · rcases List.mem_append.mp h with h | h
      · exact emitBlock_no_wildcard h
      · exact ih _ _ _ _ h
    · split at h
      · exact ih _ _ _ _ h
      · split at h
        · exact ih _ _ _ _ h
        · exact ih _ _ _ _ h

/-- Deduplication only keeps existing entries. -/
theorem dedupeByAlias_subset : ∀ (l : List SSHEntry) (seen : List Str) (e : SSHEntry),
    e ∈ dedupeByAlias l seen → e ∈ l := by
  intro l
  induction l with
  | nil =>
    intro seen e h
    simp [dedupeByAlias] at h
  | cons x xs ih =>
    intro seen e h
    unfold dedupeByAlias at h
    split at h
    · exact List.mem_cons_of_mem _ (ih _ _ h)
    · rcases List.mem_cons.mp h with rfl | h2
      · exact List.mem_cons_self _ _
      · exact List.mem_cons_of_mem _ (ih _ _ h2)

/-- C6: parsing the config text `Host alpha beta` with body lines
`  User root` and `# kitty theme: dracula`, followed by `Host *`, yields
exactly the entries `root@alpha` (target `alpha`, metadata `dracula`)
and `root@beta` (target `beta`, metadata `dracula`), with no entry for
`*`; and in general no parse ever produces an entry whose target key is
the identifier `*`, in any block. -/
theorem c6_scenario_wildcard :
    parse_ssh_config (ReadResult.content
        ("Host alpha beta\n  User root\n# kitty theme: dracula\nHost *\n".data)) =
      [⟨"root@alpha".data, "alpha".data, some ("dracula".data)⟩,
       ⟨"root@beta".data, "beta".data, some ("dracula".data)⟩] ∧
    (∀ (lines : List Str) (e : SSHEntry),
      e ∈ parse_ssh_config_lines lines → e.host_alias ≠ "*".data) := by
  constructor
  · decide
  · intro lines e h
    unfold parse_ssh_config_lines at h
    exact parseLoop_no_wildcard _ _ _ _ _
      (dedupeByAlias_subset _ _ _ ((List.mem_insertionSort sshLe).mp h))

/-- C6 witness: the wildcard part applied to the scenario itself — the
entry `root@alpha` is in the parse of the scenario lines and its target
key differs from `*`. -/
theorem c6_witness :
    (⟨"root@alpha".data, "alpha".data, some ("dracula".data)⟩ : SSHEntry) ∈
      parse_ssh_config_lines
        [("Host alpha beta".data), ("  User root".data),
         ("# kitty theme: dracula".data), ("Host *".data)] ∧
    (⟨"root@alpha".data, "alpha".data, some ("dracula".data)⟩ : SSHEntry).host_alias ≠
      "*".data := by
  refine ⟨by decide, ?_⟩
  exact c6_scenario_wildcard.2
    [("Host alpha beta".data), ("  User root".data),
     ("# kitty theme: dracula".data), ("Host *".data)] _ (by decide)

/-!
Structure of joined paths: with nonempty, slash-free components, the
joined string determines the component list, and the sorted path list is
strictly ordered by its joined strings.
-/

theorem slash_split : ∀ (a b u v : Str), '/' ∉ a → '/' ∉ b →
    a ++ '/' :: u = b ++ '/' :: v → a = b ∧ u = v := by
  intro a
  induction a with
  | nil =>
    intro b u v _ hb h
    cases b with
    | nil =>
      simp at h
      exact ⟨rfl, h⟩
    | cons y bs =>
      exfalso
      simp at h
      obtain ⟨hy, _⟩ := h
      exact hb (by rw [← hy]; exact List.mem_cons_self _ _)
  | cons x as ih =>
    intro b u v ha hb h
    cases b with
    | nil =>
      exfalso
      simp at h
      obtain ⟨hx, _⟩ := h
      exact ha (by rw [hx]; exact List.mem_cons_self _ _)
    | cons y bs =>
      simp only [List.cons_append, List.cons.injEq] at h
      obtain ⟨hxy, h2⟩ := h
      have ha' : '/' ∉ as := fun hm => ha (List.mem_cons_of_mem _ hm)
      have hb' : '/' ∉ bs := fun hm => hb (List.mem_cons_of_mem _ hm)
      obtain ⟨he, hu⟩ := ih bs u v ha' hb' h2
      exact ⟨by rw [hxy, he], hu⟩

theorem joinStr_inj : ∀ (p q : PyPath),
    (p ≠ [] ∧ ∀ c ∈ p, c ≠ [] ∧ '/' ∉ c) →
    (q ≠ [] ∧ ∀ c ∈ q, c ≠ [] ∧ '/' ∉ c) →
    joinStr p = joinStr q → p = q := by
  intro p
  induction p with
  | nil =>
    intro q hp
    exact absurd rfl hp.1
  | cons a p' ih =>
    intro q hp hq h
    cases q with
    | nil => exact absurd rfl hq.1
    | cons b q' =>
      cases p' with
      | nil =>
        cases q' with
        | nil =>
          simp only [joinStr] at h
          rw [h]
        | cons b2 q'' =>
          exfalso
          simp only [joinStr] at h
          have hmem : '/' ∈ a := by
            rw [h]
            exact List.mem_append_right _ (List.mem_cons_self _ _)
          exact ((hp.2 a (List.mem_cons_self _ _)).2) hmem
      | cons a2 p'' =>
        cases q' with
        | nil =>
          exfalso
          simp only [joinStr] at h
          have hmem : '/' ∈ b := by
            rw [← h]
            exact List.mem_append_right _ (List.mem_cons_self _ _)
          exact ((hq.2 b (List.mem_cons_self _ _)).2) hmem
        | cons b2 q'' =>
          simp only [joinStr] at h
          obtain ⟨hab, hJ⟩ := slash_split a b _ _
            ((hp.2 a (List.mem_cons_self _ _)).2)
            ((hq.2 b (List.mem_cons_self _ _)).2) h
          have hp' : a2 :: p'' ≠ [] ∧ ∀ c ∈ a2 :: p'', c ≠ [] ∧ '/' ∉ c :=
            ⟨by simp, fun c hc => hp.2 c (List.mem_cons_of_mem _ hc)⟩
          have hq' : b2 :: q'' ≠ [] ∧ ∀ c ∈ b2 :: q'', c ≠ [] ∧ '/' ∉ c :=
            ⟨by simp, fun c hc => hq.2 c (List.mem_cons_of_mem _ hc)⟩
          rw [hab, ih (b2 :: q'') hp' hq' hJ]

/-- The paths of the entries produced by the enumeration loop form a
sublist of the scanned paths. -/
theorem collectLoop_paths_sublist : ∀ (ps : List PyPath) (seen : List Str),
    List.Sublist ((collectLoop ps seen).map ThemeEntry.path) ps := by
  intro ps
  induction ps with
  | nil => intro seen; simp [collectLoop]
  | cons p ps' ih =>
    intro seen
    by_cases hc : seen.contains (pyStem (pathLastName p)) = true
    · simp only [collectLoop, hc, if_true]
      exact (ih seen).trans (List.sublist_cons_self _ _)
    · simp only [collectLoop, if_neg hc, List.map_cons]
      exact List.Sublist.cons₂ p (ih _)

/-- Two distinct members of a list occur as a two-element sublist in one
of the two orders. -/
theorem pair_sublist_of_mem_ne {α : Type} {l : List α} {a b : α}
    (ha : a ∈ l) (hb : b ∈ l) (hne : a ≠ b) :
    List.Sublist [a, b] l ∨ List.Sublist [b, a] l := by
  induction l with
  | nil => cases ha
  | cons x xs ih =>
    rcases List.mem_cons.mp ha with rfl | ha'
    · have hb' : b ∈ xs := by
        rcases List.mem_cons.mp hb with rfl | h
        · exact absurd rfl hne
        · exact h
      exact Or.inl ((List.singleton_sublist.mpr hb').cons₂ a)
    · rcases List.mem_cons.mp hb with rfl | hb'
      · exact Or.inr ((List.singleton_sublist.mpr ha').cons₂ b)
      · rcases ih ha' hb' with h | h
        · exact Or.inl (h.cons x)
        · exact Or.inr (h.cons x)

/-- A two-element sublist gives two ordered positions. -/
theorem sublist_pair_index {α : Type} {x y : α} : ∀ {m : List α}, List.Sublist [x, y] m →
    ∃ (i j : Nat) (hi : i < m.length) (hj : j < m.length),
      i < j ∧ m[i] = x ∧ m[j] = y := by
  intro m
  induction m with
  | nil => intro h; exact absurd h (by simp)
  | cons c m' ih =>
    intro h
    cases h with
    | cons _ h' =>
      obtain ⟨i, j, hi, hj, hij, h1, h2⟩ := ih h'
      exact ⟨i + 1, j + 1, by simpa using hi, by simpa using hj, by omega,
        by simpa using h1, by simpa using h2⟩
    | cons₂ _ h' =>
      have hy : y ∈ m' := List.singleton_sublist.mp h'
      obtain ⟨j, hj, hjy⟩ := List.mem_iff_getElem.mp hy
      exact ⟨0, j + 1, by simp, by simpa using hj, by omega, rfl, by simpa using hjy⟩

/-- Under the rglob realizability conditions (distinct paths, nonempty
slash-free components), the entries produced by the enumeration loop on
the sorted paths are strictly increasing in their joined path strings. -/
theorem collectLoop_strict_targets (paths : List PyPath) (hnd : paths.Nodup)
    (hval : ∀ p ∈ paths, p ≠ [] ∧ ∀ comp ∈ p, comp ≠ [] ∧ '/' ∉ comp) :
    (collectLoop (List.insertionSort pathLe paths) []).Pairwise
      (fun a b => strLtB (joinStr a.path) (joinStr b.path) = true) := by
  haveI : IsTotal PyPath pathLe := ⟨fun _ _ => strLeB_total _ _⟩
  haveI : IsTrans PyPath pathLe := ⟨fun _ _ _ h1 h2 => strLeB_trans h1 h2⟩
  have hsp : (List.insertionSort pathLe paths).Pairwise pathLe :=
    List.sorted_insertionSort pathLe paths
  have hspnd : (List.insertionSort pathLe paths).Nodup :=
    (List.perm_insertionSort pathLe paths).symm.nodup hnd
  have hspval : ∀ p ∈ List.insertionSort pathLe paths,
      p ≠ [] ∧ ∀ comp ∈ p, comp ≠ [] ∧ '/' ∉ comp :=
    fun p hp => hval p ((List.mem_insertionSort pathLe).mp hp)
  have hstrict : (List.insertionSort pathLe paths).Pairwise
      (fun p q => strLtB (joinStr p) (joinStr q) = true) := by
    refine (hsp.and hspnd).imp_of_mem ?_
    intro a b ha hb hab
    rcases strLeB_iff.mp hab.1 with h | h
    · exact h
    · exact absurd (joinStr_inj a b (hspval a ha) (hspval b hb) h) hab.2
  have hmap := hstrict.sublist (collectLoop_paths_sublist (List.insertionSort pathLe paths) [])
  exact List.pairwise_map.mp hmap

/-- Stability of the final display sort: on a list whose joined path
strings strictly increase, the stable sort by case-folded display is
sorted lexicographically by (case-folded display, joined path string). -/
theorem stable_sorted_lex {l : List ThemeEntry}
    (hT : l.Pairwise (fun a b => strLtB (joinStr a.path) (joinStr b.path) = true)) :
    (List.insertionSort themeLe l).Pairwise (fun a b =>
      strLtB (pyLower a.display) (pyLower b.display) = true ∨
      (pyLower a.display = pyLower b.display ∧
        strLtB (joinStr a.path) (joinStr b.path) = true)) := by
  haveI : IsTotal ThemeEntry themeLe := ⟨fun _ _ => strLeB_total _ _⟩
  haveI : IsTrans ThemeEntry themeLe := ⟨fun _ _ _ h1 h2 => strLeB_trans h1 h2⟩
  have hsorted : (List.insertionSort themeLe l).Pairwise themeLe :=
    List.sorted_insertionSort themeLe l
  have hndl : l.Nodup := by
    refine hT.imp ?_
    intro a b hab he
    rw [he, strLtB_irrefl] at hab
    exact absurd hab (by simp)
  have hperm := List.perm_insertionSort themeLe l
  have hnds : (List.insertionSort themeLe l).Nodup := hperm.symm.nodup hndl
  rw [List.pairwise_iff_getElem]
  intro i j hi hj hij
  have hle : themeLe (List.insertionSort themeLe l)[i] (List.insertionSort themeLe l)[j] :=
    List.pairwise_iff_getElem.mp hsorted i j hi hj hij
  by_cases hlt : strLtB (pyLower (List.insertionSort themeLe l)[i].display)
      (pyLower (List.insertionSort themeLe l)[j].display) = true
  · exact Or.inl hlt
  · have heq : pyLower (List.insertionSort themeLe l)[i].display =
        pyLower (List.insertionSort themeLe l)[j].display := by
      rcases strLeB_iff.mp hle with h | h
      · exact absurd h hlt
      · exact h
    refine Or.inr ⟨heq, ?_⟩
    have hne : (List.insertionSort themeLe l)[i] ≠ (List.insertionSort themeLe l)[j] := by
      intro he
      exact absurd (hnds.getElem_inj_iff.mp he) (Nat.ne_of_lt hij)
    have hmi : (List.insertionSort themeLe l)[i] ∈ l :=
      hperm.mem_iff.mp (List.getElem_mem hi)
    have hmj : (List.insertionSort themeLe l)[j] ∈ l :=
      hperm.mem_iff.mp (List.getElem_mem hj)
    rcases pair_sublist_of_mem_ne hmi hmj hne with hsub | hsub
    · have hp : List.Pairwise (fun a b => strLtB (joinStr a.path) (joinStr b.path) = true)
          [(List.insertionSort themeLe l)[i], (List.insertionSort themeLe l)[j]] :=
        List.Pairwise.sublist hsub hT
      exact (List.pairwise_cons.mp hp).1 _ (List.mem_cons_self _ _)
    · exfalso
      have hle2 : themeLe (List.insertionSort themeLe l)[j] (List.insertionSort themeLe l)[i] := by
        show strLeB (pyLower (List.insertionSort themeLe l)[j].display)
          (pyLower (List.insertionSort themeLe l)[i].display) = true
        rw [← heq]
        exact strLeB_refl _
      have hsub2 := List.pair_sublist_insertionSort hle2 hsub
      obtain ⟨i', j', hi', hj', hij', he1, he2⟩ := sublist_pair_index hsub2
      have hji : i' = j := hnds.getElem_inj_iff.mp he1
      have hij2 : j' = i := hnds.getElem_inj_iff.mp he2
      omega

/-- Prefixing both strings with the same directory prefix preserves the
comparison. -/
theorem strLtB_dir_left (cfg a b : Str) :
    strLtB (cfg ++ '/' :: a) (cfg ++ '/' :: b) = strLtB a b := by
  have h := strLtB_append_left (cfg ++ ['/']) a b
  simpa using h

/-- C4: for every input the full entry list is sorted by case-folded
display label with the target key as tie-break on equal folded labels:
in the config-file variant (any line list) the key pair
`(display.lower(), host_alias)` is non-strictly lexicographically
increasing, and in the theme-directory variant (any set of `.conf` files
under the config directory: distinct relative paths with nonempty,
slash-free components) the pair of case-folded display and absolute path
string is increasing, with the path tie-break strict.  Both hold
regardless of input order. -/
theorem c4_sorted (lines : List Str) (paths : List PyPath) (cfg : Str)
    (hnd : paths.Nodup)
    (hval : ∀ p ∈ paths, p ≠ [] ∧ ∀ comp ∈ p, comp ≠ [] ∧ '/' ∉ comp) :
    (parse_ssh_config_lines lines).Pairwise (fun a b =>
      strLtB (pyLower a.display) (pyLower b.display) = true ∨
      (pyLower a.display = pyLower b.display ∧ strLeB a.host_alias b.host_alias = true)) ∧
    (collect_themes paths).Pairwise (fun a b =>
      strLtB (pyLower a.display) (pyLower b.display) = true ∨
      (pyLower a.display = pyLower b.display ∧
        strLtB (pathTarget cfg a.path) (pathTarget cfg b.path) = true)) := by
  constructor
  · haveI : IsTotal SSHEntry sshLe := ⟨fun _ _ => lexLeB_total _ _ _ _⟩
    haveI : IsTrans SSHEntry sshLe := ⟨fun _ _ _ h1 h2 => lexLeB_trans h1 h2⟩
    have hs : (parse_ssh_config_lines lines).Pairwise sshLe :=
      List.sorted_insertionSort sshLe (dedupeByAlias (parseLoop lines [] none none) [])
    refine hs.imp ?_
    intro a b hab
    have hab2 : strLtB (pyLower a.display) (pyLower b.display) = true ∨
        (pyLower a.display = pyLower b.display ∧ strLeB a.host_alias b.host_alias = true) := by
      have := hab
      unfold sshLe lexLeB at this
      simpa using this
    exact hab2
  · have hT := collectLoop_strict_targets paths hnd hval
    have hlex := stable_sorted_lex hT
    refine hlex.imp ?_
    intro a b hab
    rcases hab with h | ⟨he, ht⟩
    · exact Or.inl h
    · refine Or.inr ⟨he, ?_⟩
      unfold pathTarget
      rw [strLtB_dir_left]
      exact ht

/-- C4 witness: the theme part of the theorem applied to a concrete
directory tree with two files whose folded display labels collide. -/
theorem c4_witness :
    ([["B.conf".data], ["b.conf".data]] : List PyPath).Nodup ∧
    (∀ p ∈ ([["B.conf".data], ["b.conf".data]] : List PyPath),
      p ≠ [] ∧ ∀ comp ∈ p, comp ≠ [] ∧ '/' ∉ comp) ∧
    (collect_themes [["B.conf".data], ["b.conf".data]]).Pairwise (fun a b =>
      strLtB (pyLower a.display) (pyLower b.display) = true ∨
      (pyLower a.display = pyLower b.display ∧
        strLtB (pathTarget ("/k".data) a.path) (pathTarget ("/k".data) b.path) = true)) := by
  refine ⟨by decide, by decide, ?_⟩
  exact (c4_sorted [] [["B.conf".data], ["b.conf".data]] ("/k".data)
    (by decide) (by decide)).2

/-- Entries surviving deduplication have keys outside the seen set. -/
theorem dedupeByAlias_not_seen : ∀ (l : List SSHEntry) (seen : List Str) (e : SSHEntry),
    e ∈ dedupeByAlias l seen → e.host_alias ∉ seen := by
  intro l
  induction l with
  | nil =>
    intro seen e h
    simp [dedupeByAlias] at h
  | cons x xs ih =>
    intro seen e h
    unfold dedupeByAlias at h
    split at h
    · exact ih _ _ h
    · rcases List.mem_cons.mp h with rfl | h2
      · rename_i hc
        intro hmem
        exact hc (by simpa [List.contains, List.elem_iff] using hmem)
      · have hn := ih _ _ h2
        intro hmem
        exact hn (List.mem_cons_of_mem _ hmem)

/-- After deduplication the keys are pairwise distinct. -/
theorem dedupeByAlias_nodup_keys : ∀ (l : List SSHEntry) (seen : List Str),
    ((dedupeByAlias l seen).map SSHEntry.host_alias).Nodup := by
  intro l
  induction l with
  | nil =>
    intro seen
    simp [dedupeByAlias]
  | cons x xs ih =>
    intro seen
    unfold dedupeByAlias
    split
    · exact ih _
    · simp only [List.map_cons]
      rw [List.nodup_cons]
      constructor
      · intro hmem
        obtain ⟨e, he, hae⟩ := List.mem_map.mp hmem
        have hn := dedupeByAlias_not_seen _ _ _ he
        exact hn (by rw [hae]; exact List.mem_cons_self _ _)
      · exact ih _

/-- An entry surviving deduplication is the first entry in the scanned
list carrying its key. -/
theorem dedupeByAlias_find_first : ∀ (l : List SSHEntry) (seen : List Str) (e : SSHEntry),
    e ∈ dedupeByAlias l seen →
    l.find? (fun x => x.host_alias == e.host_alias) = some e := by
  intro l
  induction l with
  | nil =>
    intro seen e h
    simp [dedupeByAlias] at h
  | cons x xs ih =>
    intro seen e h
    unfold dedupeByAlias at h
    split at h
    · rename_i hc
      have hnot := dedupeByAlias_not_seen _ _ _ h
      have hne : (x.host_alias == e.host_alias) = false := by
        rw [beq_eq_false_iff_ne]
        intro heq
        apply hnot
        rw [← heq]
        simpa [List.contains, List.elem_iff] using hc
      rw [List.find?_cons_of_neg _ (by simp [hne])]
      exact ih _ _ h
    · rcases List.mem_cons.mp h with rfl | h2
      · rw [List.find?_cons_of_pos _ (by simp)]
      · have hnot := dedupeByAlias_not_seen _ _ _ h2
        have hne : (x.host_alias == e.host_alias) = false := by
          rw [beq_eq_false_iff_ne]
          intro heq
          exact hnot (by rw [← heq]; exact List.mem_cons_self _ _)
        rw [List.find?_cons_of_neg _ (by simp [hne])]
        exact ih _ _ h2

/-- Entries surviving the theme enumeration have stems outside the seen
set. -/
theorem collectLoop_not_seen : ∀ (ps : List PyPath) (seen : List Str) (e : ThemeEntry),
    e ∈ collectLoop ps seen → pyStem (pathLastName e.path) ∉ seen := by
  intro ps
  induction ps with
  | nil =>
    intro seen e h
    simp [collectLoop] at h
  | cons p ps' ih =>
    intro seen e h
    by_cases hc : seen.contains (pyStem (pathLastName p)) = true
    · simp only [collectLoop, hc, if_true] at h
      exact ih _ _ h
    · simp only [collectLoop, if_neg hc] at h
      rcases List.mem_cons.mp h with rfl | h2
      · intro hmem
        exact hc (by simpa [List.contains, List.elem_iff] using hmem)
      · have hn := ih _ _ h2
        intro hmem
        exact hn (List.mem_cons_of_mem _ hmem)

/-- A surviving theme entry comes from the first scanned path with its
stem, and its display label is derived from that path. -/
theorem collectLoop_find_first : ∀ (ps : List PyPath) (seen : List Str) (e : ThemeEntry),
    e ∈ collectLoop ps seen →
    ps.find? (fun p => pyStem (pathLastName p) == pyStem (pathLastName e.path)) =
      some e.path ∧ e.display = pathDisplay e.path := by
  intro ps
  induction ps with
  | nil =>
    intro seen e h
    simp [collectLoop] at h
  | cons p ps' ih =>
    intro seen e h
    by_cases hc : seen.contains (pyStem (pathLastName p)) = true
    · simp only [collectLoop, hc, if_true] at h
      have hnot := collectLoop_not_seen _ _ _ h
      have hne : (pyStem (pathLastName p) == pyStem (pathLastName e.path)) = false := by
        rw [beq_eq_false_iff_ne]
        intro heq
        apply hnot
        rw [← heq]
        simpa [List.contains, List.elem_iff] using hc
      obtain ⟨hf, hd⟩ := ih _ _ h
      exact ⟨by rw [List.find?_cons_of_neg _ (by simp [hne])]; exact hf, hd⟩
    · simp only [collectLoop, if_neg hc] at h
      rcases List.mem_cons.mp h with rfl | h2
      · exact ⟨by rw [List.find?_cons_of_pos _ (by simp)], rfl⟩
      · have hnot := collectLoop_not_seen _ _ _ h2
        have hne : (pyStem (pathLastName p) == pyStem (pathLastName e.path)) = false := by
          rw [beq_eq_false_iff_ne]
          intro heq
          exact hnot (by rw [← heq]; exact List.mem_cons_self _ _)
        obtain ⟨hf, hd⟩ := ih _ _ h2
        exact ⟨by rw [List.find?_cons_of_neg _ (by simp [hne])]; exact hf, hd⟩

/-- C5: target keys are pairwise distinct in the full entry list, and
when the source declares the same de-duplication key more than once only
the entry derived from the first occurrence appears: in the config-file
variant every parsed entry is the first candidate with its alias (in
declaration order), and in the theme-directory variant every entry comes
from the first path with its stem in the sorted enumeration, carrying
that path and its display label. -/
theorem c5_dedupe (lines : List Str) (paths : List PyPath) (cfg : Str)
    (hnd : paths.Nodup)
    (hval : ∀ p ∈ paths, p ≠ [] ∧ ∀ comp ∈ p, comp ≠ [] ∧ '/' ∉ comp) :
    ((parse_ssh_config_lines lines).map SSHEntry.host_alias).Nodup ∧
    (∀ e ∈ parse_ssh_config_lines lines,
      (parseLoop lines [] none none).find? (fun x => x.host_alias == e.host_alias) =
        some e) ∧
    (collect_themes paths).Pairwise
      (fun a b => pathTarget cfg a.path ≠ pathTarget cfg b.path) ∧
    (∀ e ∈ collect_themes paths,
      (List.insertionSort pathLe paths).find?
        (fun p => pyStem (pathLastName p) == pyStem (pathLastName e.path)) =
          some e.path ∧
      e.display = pathDisplay e.path) := by
  refine ⟨?_, ?_, ?_, ?_⟩
  · have hperm := (List.perm_insertionSort sshLe
      (dedupeByAlias (parseLoop lines [] none none) [])).map SSHEntry.host_alias
    exact hperm.symm.nodup (dedupeByAlias_nodup_keys _ _)
  · intro e he
    exact dedupeByAlias_find_first _ _ _ ((List.mem_insertionSort sshLe).mp he)
  · have hT := collectLoop_strict_targets paths hnd hval
    have hne : (collectLoop (List.insertionSort pathLe paths) []).Pairwise
        (fun a b => pathTarget cfg a.path ≠ pathTarget cfg b.path) := by
      refine hT.imp ?_
      intro a b hab he
      unfold pathTarget at he
      have hj : joinStr a.path = joinStr b.path := by
        have h2 := List.append_cancel_left he
        exact List.tail_eq_of_cons_eq h2
      rw [hj, strLtB_irrefl] at hab
      exact absurd hab (by simp)
    exact ((List.perm_insertionSort themeLe _).pairwise_iff
      (fun h => Ne.symm h)).mpr hne
  · intro e he
    exact collectLoop_find_first _ _ _ ((List.mem_insertionSort themeLe).mp he)

/-- C5 witness: the theorem applied to a concrete config with the alias
`a` declared in two blocks and a concrete directory with the stem `x`
under two paths; the parsed lists keep only the first occurrences. -/
theorem c5_witness :
    ([["d".data, "x.conf".data], ["x.conf".data]] : List PyPath).Nodup ∧
    (∀ p ∈ ([["d".data, "x.conf".data], ["x.conf".data]] : List PyPath),
      p ≠ [] ∧ ∀ comp ∈ p, comp ≠ [] ∧ '/' ∉ comp) ∧
    ((parse_ssh_config_lines
      [("Host a".data), ("  User u".data), ("Host a b".data)]).map
        SSHEntry.host_alias).Nodup ∧
    (∀ e ∈ parse_ssh_config_lines
        [("Host a".data), ("  User u".data), ("Host a b".data)],
      (parseLoop [("Host a".data), ("  User u".data), ("Host a b".data)]
        [] none none).find? (fun x => x.host_alias == e.host_alias) = some e) := by
  refine ⟨by decide, by decide, ?_, ?_⟩
  · exact (c5_dedupe [("Host a".data), ("  User u".data), ("Host a b".data)]
      [["d".data, "x.conf".data], ["x.conf".data]] ("/k".data)
      (by decide) (by decide)).1
  · exact (c5_dedupe [("Host a".data), ("  User u".data), ("Host a b".data)]
      [["d".data, "x.conf".data], ["x.conf".data]] ("/k".data)
      (by decide) (by decide)).2.1
